import Mathlib

/-!
# Verification of the nofx trading core

A shallow embedding of the nofx repository's core algorithms, translated from the
Go sources:

* `manager/position_matcher.go` — FIFO trade-to-position matching,
* `decision/engine.go`          — decision validation, response extraction and the
                                  bounded correction-retry loop, market-data fetch,
* `market/data.go`              — technical indicators (ADX seeding).

Go `float64` values are modelled as exact rationals (`ℚ`), `time.Time` as an
integer timeline, and fallible operations as `Option`/`Except`.  Go's
`sort.Slice` is modelled by stable insertion sort (`List.insertionSort`), which
is the algorithm Go itself runs on the small slices involved here.
-/

namespace Nofx

/-- `database.TradeRecord`, restricted to the fields the matcher reads
(symbol, price, quantity, commission, buyer flag, timestamp). -/
structure TradeRecord where
  symbol : String
  price : ℚ
  quantity : ℚ
  commission : ℚ
  isBuyer : Bool
  timestamp : ℤ
deriving DecidableEq

/-- `manager.ClosedPosition`.  The Go `Duration string` field (a formatting of
`CloseTime - OpenTime`) is modelled as the integer difference itself. -/
structure ClosedPosition where
  symbol : String
  openTime : ℤ
  closeTime : ℤ
  duration : ℤ
  totalQuantity : ℚ
  avgOpenPrice : ℚ
  avgClosePrice : ℚ
  totalFees : ℚ
  netProfit : ℚ
deriving DecidableEq

/-- `min` for float64 from position_matcher.go. -/
def fmin (a b : ℚ) : ℚ := if a < b then a else b

/-- The loop of `match` in position_matcher.go: walk the open-lot queue carrying
the remaining closing quantity `closingQty`; emit one `ClosedPosition` per match,
keep partially consumed lots, and return the final remaining closing quantity. -/
def matchLoop (closingTrade : TradeRecord) (isLongPosition : Bool) :
    List TradeRecord → ℚ → List ClosedPosition × List TradeRecord × ℚ
  | [], closingQty => ([], [], closingQty)
  | openTrade :: rest, closingQty =>
    if closingQty = 0 then
      let r := matchLoop closingTrade isLongPosition rest closingQty
      (r.1, openTrade :: r.2.1, r.2.2)
    else
      let matchQty := fmin closingQty openTrade.quantity
      let openTradeFee :=
        if 0 < openTrade.quantity then openTrade.commission * (matchQty / openTrade.quantity) else 0
      let closingTradeFee :=
        if 0 < closingTrade.quantity then
          closingTrade.commission * (matchQty / closingTrade.quantity)
        else 0
      let totalFees := openTradeFee + closingTradeFee
      let netProfit :=
        if isLongPosition then (closingTrade.price - openTrade.price) * matchQty - totalFees
        else (openTrade.price - closingTrade.price) * matchQty - totalFees
      let closed : ClosedPosition :=
        { symbol := closingTrade.symbol
          openTime := openTrade.timestamp
          closeTime := closingTrade.timestamp
          duration := closingTrade.timestamp - openTrade.timestamp
          totalQuantity := matchQty
          avgOpenPrice := openTrade.price
          avgClosePrice := closingTrade.price
          totalFees := totalFees
          netProfit := netProfit }
      let newOpenQty := openTrade.quantity - matchQty
      let r := matchLoop closingTrade isLongPosition rest (closingQty - matchQty)
      (closed :: r.1,
       (if 0 < newOpenQty then [{ openTrade with quantity := newOpenQty }] else []) ++ r.2.1,
       r.2.2)

/-- `match` from position_matcher.go (`match` is a Lean keyword, hence `matchFills`).
Returns the emitted closed positions, the remaining open-lot queue, and the closing
trade with its quantity reduced to the unmatched remainder. -/
def matchFills (closingTrade : TradeRecord) (openTrades : List TradeRecord)
    (isLongPosition : Bool) :
    List ClosedPosition × List TradeRecord × TradeRecord :=
  let r := matchLoop closingTrade isLongPosition openTrades closingTrade.quantity
  (r.1, r.2.1, { closingTrade with quantity := r.2.2 })

/-- The per-symbol loop of `MatchPositions`: fold the time-sorted trades through
the two open-lot queues `openBuys` / `openSells`, collecting closed positions.
Returns (closed positions, final openBuys, final openSells). -/
def processTrades : List TradeRecord → List TradeRecord → List TradeRecord →
    List ClosedPosition × List TradeRecord × List TradeRecord
  | [], openBuys, openSells => ([], openBuys, openSells)
  | trade :: rest, openBuys, openSells =>
    if trade.isBuyer then
      let m := matchFills trade openSells false
      let openBuys' := if 0 < m.2.2.quantity then openBuys ++ [m.2.2] else openBuys
      let r := processTrades rest openBuys' m.2.1
      (m.1 ++ r.1, r.2.1, r.2.2)
    else
      let m := matchFills trade openBuys true
      let openSells' := if 0 < m.2.2.quantity then openSells ++ [m.2.2] else openSells
      let r := processTrades rest m.2.1 openSells'
      (m.1 ++ r.1, r.2.1, r.2.2)

/-- Comparator of the per-symbol `sort.Slice` call: ascending by timestamp. -/
def tsLE (a b : TradeRecord) : Prop := a.timestamp ≤ b.timestamp

instance : DecidableRel tsLE := fun a b => inferInstanceAs (Decidable (a.timestamp ≤ b.timestamp))

/-- The per-symbol `sort.Slice(..., Timestamp.Before)` call, modelled by stable
insertion sort. -/
def sortByTs (trades : List TradeRecord) : List TradeRecord :=
  trades.insertionSort tsLE

/-- Comparator of the final `sort.Slice` call: descending by close time
(`CloseTime.After`). -/
def closeDescLE (a b : ClosedPosition) : Prop := b.closeTime ≤ a.closeTime

instance : DecidableRel closeDescLE := fun a b => inferInstanceAs (Decidable (b.closeTime ≤ a.closeTime))

/-- The final presentation sort of `MatchPositions` (most recent close first). -/
def sortByCloseDesc (positions : List ClosedPosition) : List ClosedPosition :=
  positions.insertionSort closeDescLE

/-- The distinct symbols of a trade list, in first-occurrence order; this stands
for the key set of the `tradesBySymbol` map in `MatchPositions`. -/
def symbolsOf (trades : List TradeRecord) : List String :=
  (trades.map (fun t => t.symbol)).dedup

/-- The body of `MatchPositions` for one symbol group: sort ascending by
timestamp, then fold through the open-lot queues. -/
def matchSymbolTrades (symbolTrades : List TradeRecord) :
    List ClosedPosition × List TradeRecord × List TradeRecord :=
  processTrades (sortByTs symbolTrades) [] []

/-- `MatchPositions` from position_matcher.go: group by symbol, process each
group, concatenate, and sort by close time descending. -/
def MatchPositions (trades : List TradeRecord) : List ClosedPosition :=
  sortByCloseDesc ((symbolsOf trades).flatMap
    (fun s => (matchSymbolTrades (trades.filter (fun t => t.symbol = s))).1))

/-! ## Matcher lemmas -/

instance : IsTotal TradeRecord tsLE := ⟨fun a b => le_total a.timestamp b.timestamp⟩

instance : IsTrans TradeRecord tsLE := ⟨fun _ _ _ hab hbc => le_trans hab hbc⟩

/-- Strict timestamp order, used to conclude that two time-sorted arrangements
of the same fills agree when timestamps are pairwise distinct. -/
def tsLT (a b : TradeRecord) : Prop := a.timestamp < b.timestamp

instance : IsAntisymm TradeRecord tsLT :=
  ⟨fun _ _ hab hba => absurd (lt_trans hab hba) (lt_irrefl _)⟩

theorem sortByTs_perm (l : List TradeRecord) : List.Perm (sortByTs l) l :=
  List.perm_insertionSort tsLE l

/-- Two permutations of the same fills sort to the same list once their
timestamps are pairwise distinct. -/
theorem sortByTs_eq_of_perm {l₁ l₂ : List TradeRecord} (hperm : List.Perm l₁ l₂)
    (hts : ((l₁.map (fun t => t.timestamp))).Nodup) :
    sortByTs l₁ = sortByTs l₂ := by
  have hp : List.Perm (sortByTs l₁) (sortByTs l₂) :=
    ((sortByTs_perm l₁).trans hperm).trans (sortByTs_perm l₂).symm
  have hn₁ : ((sortByTs l₁).map (fun t => t.timestamp)).Nodup :=
    (((sortByTs_perm l₁).map (fun t => t.timestamp)).nodup_iff).mpr hts
  have hn₂ : ((sortByTs l₂).map (fun t => t.timestamp)).Nodup :=
    ((hp.map (fun t => t.timestamp)).nodup_iff).mp hn₁
  have hs₁ : List.Sorted tsLE (sortByTs l₁) := List.sorted_insertionSort tsLE l₁
  have hs₂ : List.Sorted tsLE (sortByTs l₂) := List.sorted_insertionSort tsLE l₂
  have hlt : ∀ {l : List TradeRecord}, List.Sorted tsLE l →
      ((l.map (fun t => t.timestamp))).Nodup → List.Sorted tsLT l := by
    intro l hs hn
    have hne : l.Pairwise (fun a b => a.timestamp ≠ b.timestamp) :=
      (List.pairwise_map).mp hn
    exact (hs.and hne).imp (fun h => lt_of_le_of_ne h.1 h.2)
  exact List.eq_of_perm_of_sorted hp (hlt hs₁ hn₁) (hlt hs₂ hn₂)

/-- Core of the order-independence property: with pairwise-distinct timestamps
per symbol, `MatchPositions` on permuted inputs returns permuted outputs. -/
theorem matchPositions_perm {l₁ l₂ : List TradeRecord} (hperm : List.Perm l₁ l₂)
    (hts : ∀ s : String, ((l₁.filter (fun t => t.symbol = s)).map (fun t => t.timestamp)).Nodup) :
    List.Perm (MatchPositions l₁) (MatchPositions l₂) := by
  have hgroups : ∀ s : String,
      (matchSymbolTrades (l₁.filter (fun t => t.symbol = s))).1 =
      (matchSymbolTrades (l₂.filter (fun t => t.symbol = s))).1 := by
    intro s
    have hpf : List.Perm (l₁.filter (fun t => t.symbol = s)) (l₂.filter (fun t => t.symbol = s)) :=
      hperm.filter _
    have hsort : sortByTs (l₁.filter (fun t => t.symbol = s)) =
        sortByTs (l₂.filter (fun t => t.symbol = s)) :=
      sortByTs_eq_of_perm hpf (hts s)
    unfold matchSymbolTrades
    rw [hsort]
  have hsym : List.Perm (symbolsOf l₁) (symbolsOf l₂) := by
    unfold symbolsOf
    exact (hperm.map (fun t => t.symbol)).dedup
  have hbody : List.Perm
      ((symbolsOf l₁).flatMap (fun s => (matchSymbolTrades (l₁.filter (fun t => t.symbol = s))).1))
      ((symbolsOf l₂).flatMap (fun s => (matchSymbolTrades (l₂.filter (fun t => t.symbol = s))).1)) := by
    have : (fun s => (matchSymbolTrades (l₁.filter (fun t => t.symbol = s))).1) =
        (fun s => (matchSymbolTrades (l₂.filter (fun t => t.symbol = s))).1) :=
      funext hgroups
    rw [this]
    exact hsym.flatMap_right _
  unfold MatchPositions sortByCloseDesc
  exact ((List.perm_insertionSort _ _).trans hbody).trans (List.perm_insertionSort _ _).symm

/-- Total fill quantity of a trade list. -/
def sumQty (l : List TradeRecord) : ℚ := (l.map (fun t => t.quantity)).sum

/-- Total matched quantity of a closed-position list. -/
def sumClosedQty (l : List ClosedPosition) : ℚ := (l.map (fun c => c.totalQuantity)).sum

theorem sumQty_nil : sumQty [] = 0 := rfl

theorem sumQty_cons (t : TradeRecord) (l : List TradeRecord) :
    sumQty (t :: l) = t.quantity + sumQty l := by simp [sumQty]

theorem sumQty_append (l₁ l₂ : List TradeRecord) :
    sumQty (l₁ ++ l₂) = sumQty l₁ + sumQty l₂ := by simp [sumQty]

theorem sumClosedQty_nil : sumClosedQty [] = 0 := rfl

theorem sumClosedQty_cons (c : ClosedPosition) (l : List ClosedPosition) :
    sumClosedQty (c :: l) = c.totalQuantity + sumClosedQty l := by simp [sumClosedQty]

theorem sumClosedQty_append (l₁ l₂ : List ClosedPosition) :
    sumClosedQty (l₁ ++ l₂) = sumClosedQty l₁ + sumClosedQty l₂ := by simp [sumClosedQty]

theorem fmin_le_left (a b : ℚ) : fmin a b ≤ a := by
  unfold fmin; split <;> linarith

theorem fmin_le_right (a b : ℚ) : fmin a b ≤ b := by
  unfold fmin; split
  · linarith
  · linarith [le_of_not_lt (by assumption : ¬ a < b)]

/-- One matched unit consumes one unit of the open lot and one unit of the
closing fill, so the matched quantity is counted twice against fill input. -/
theorem matchLoop_conservation (ct : TradeRecord) (il : Bool)
    (ots : List TradeRecord) (q : ℚ) :
    2 * sumClosedQty (matchLoop ct il ots q).1 + sumQty (matchLoop ct il ots q).2.1 +
      (matchLoop ct il ots q).2.2 = sumQty ots + q := by
  induction ots generalizing q with
  | nil => simp [matchLoop, sumClosedQty_nil, sumQty_nil]
  | cons ot rest ih =>
    by_cases h : q = 0
    · simp only [matchLoop, if_pos h, sumQty_cons]
      have := ih q
      simp only [sumQty_cons] at this ⊢
      linarith
    · simp only [matchLoop, if_neg h]
      by_cases h2 : 0 < ot.quantity - fmin q ot.quantity
      · simp only [if_pos h2, sumClosedQty_cons, sumQty_append, sumQty_cons, sumQty_nil]
        have := ih (q - fmin q ot.quantity)
        simp only [sumQty_cons] at this ⊢
        linarith
      · simp only [if_neg h2, List.nil_append, sumClosedQty_cons, sumQty_cons]
        have := ih (q - fmin q ot.quantity)
        have hle : fmin q ot.quantity ≤ ot.quantity := fmin_le_right q ot.quantity
        have heq : ot.quantity - fmin q ot.quantity = 0 := by
          have := le_of_not_lt h2
          linarith
        linarith

theorem matchLoop_qty_nonneg (ct : TradeRecord) (il : Bool)
    (ots : List TradeRecord) (q : ℚ) (hq : 0 ≤ q) :
    0 ≤ (matchLoop ct il ots q).2.2 := by
  induction ots generalizing q with
  | nil => simpa [matchLoop]
  | cons ot rest ih =>
    by_cases h : q = 0
    · simp only [matchLoop, if_pos h]
      exact ih q hq
    · simp only [matchLoop, if_neg h]
      exact ih (q - fmin q ot.quantity) (by linarith [fmin_le_left q ot.quantity])

theorem processTrades_conservation (trades : List TradeRecord)
    (openBuys openSells : List TradeRecord)
    (hq : ∀ t ∈ trades, 0 ≤ t.quantity) :
    2 * sumClosedQty (processTrades trades openBuys openSells).1 +
      sumQty (processTrades trades openBuys openSells).2.1 +
      sumQty (processTrades trades openBuys openSells).2.2 =
      sumQty trades + sumQty openBuys + sumQty openSells := by
  induction trades generalizing openBuys openSells with
  | nil => simp [processTrades, sumQty_nil, sumClosedQty_nil]
  | cons trade rest ih =>
    have hqt : 0 ≤ trade.quantity := hq trade (List.mem_cons_self _ _)
    have hqr : ∀ t ∈ rest, 0 ≤ t.quantity := fun t ht => hq t (List.mem_cons_of_mem _ ht)
    by_cases hb : trade.isBuyer
    · simp only [processTrades, if_pos hb, matchFills, sumClosedQty_append, sumQty_cons]
      have hcons := matchLoop_conservation trade false openSells trade.quantity
      have hnn := matchLoop_qty_nonneg trade false openSells trade.quantity hqt
      by_cases hrem : 0 < (matchLoop trade false openSells trade.quantity).2.2
      · simp only [if_pos hrem]
        have := ih (openBuys ++ [{ trade with quantity := (matchLoop trade false openSells trade.quantity).2.2 }])
          (matchLoop trade false openSells trade.quantity).2.1 hqr
        simp only [sumQty_append, sumQty_cons, sumQty_nil] at this
        linarith
      · simp only [if_neg hrem]
        have := ih openBuys (matchLoop trade false openSells trade.quantity).2.1 hqr
        have hz : (matchLoop trade false openSells trade.quantity).2.2 = 0 := by
          linarith [le_of_not_lt hrem]
        linarith
    · simp only [processTrades, if_neg hb, matchFills, sumClosedQty_append, sumQty_cons]
      have hcons := matchLoop_conservation trade true openBuys trade.quantity
      have hnn := matchLoop_qty_nonneg trade true openBuys trade.quantity hqt
      by_cases hrem : 0 < (matchLoop trade true openBuys trade.quantity).2.2
      · simp only [if_pos hrem]
        have := ih (matchLoop trade true openBuys trade.quantity).2.1
          (openSells ++ [{ trade with quantity := (matchLoop trade true openBuys trade.quantity).2.2 }]) hqr
        simp only [sumQty_append, sumQty_cons, sumQty_nil] at this
        linarith
      · simp only [if_neg hrem]
        have := ih (matchLoop trade true openBuys trade.quantity).2.1 openSells hqr
        have hz : (matchLoop trade true openBuys trade.quantity).2.2 = 0 := by
          linarith [le_of_not_lt hrem]
        linarith

theorem matchLoop_closed_symbol (ct : TradeRecord) (il : Bool)
    (ots : List TradeRecord) (q : ℚ) :
    ∀ c ∈ (matchLoop ct il ots q).1, c.symbol = ct.symbol := by
  induction ots generalizing q with
  | nil => simp [matchLoop]
  | cons ot rest ih =>
    by_cases h : q = 0
    · simp only [matchLoop, if_pos h]
      exact ih q
    · simp only [matchLoop, if_neg h]
      intro c hc
      rcases List.mem_cons.mp hc with hc | hc
      · rw [hc]
      · exact ih (q - fmin q ot.quantity) c hc

theorem processTrades_closed_symbol (s : String) (trades : List TradeRecord)
    (openBuys openSells : List TradeRecord)
    (hs : ∀ t ∈ trades, t.symbol = s) :
    ∀ c ∈ (processTrades trades openBuys openSells).1, c.symbol = s := by
  induction trades generalizing openBuys openSells with
  | nil => simp [processTrades]
  | cons trade rest ih =>
    have hst : trade.symbol = s := hs trade (List.mem_cons_self _ _)
    have hsr : ∀ t ∈ rest, t.symbol = s := fun t ht => hs t (List.mem_cons_of_mem _ ht)
    intro c hc
    by_cases hb : trade.isBuyer
    · simp only [processTrades, if_pos hb] at hc
      rcases List.mem_append.mp hc with hc | hc
      · rw [matchLoop_closed_symbol trade false _ _ c hc]; exact hst
      · exact ih _ _ hsr c hc
    · simp only [processTrades, if_neg hb] at hc
      rcases List.mem_append.mp hc with hc | hc
      · rw [matchLoop_closed_symbol trade true _ _ c hc]; exact hst
      · exact ih _ _ hsr c hc

theorem group_closed_symbol (trades : List TradeRecord) (s : String) :
    ∀ c ∈ (matchSymbolTrades (trades.filter (fun t => t.symbol = s))).1, c.symbol = s := by
  apply processTrades_closed_symbol
  intro t ht
  have := (sortByTs_perm _).mem_iff.mp ht
  exact of_decide_eq_true (List.mem_filter.mp this).2

theorem sumClosedQty_perm {l₁ l₂ : List ClosedPosition} (h : List.Perm l₁ l₂) :
    sumClosedQty l₁ = sumClosedQty l₂ := by
  unfold sumClosedQty
  exact (h.map (fun c => c.totalQuantity)).sum_eq

theorem sumQty_perm {l₁ l₂ : List TradeRecord} (h : List.Perm l₁ l₂) :
    sumQty l₁ = sumQty l₂ := by
  unfold sumQty
  exact (h.map (fun t => t.quantity)).sum_eq

theorem sumClosedQty_flatMap (l : List String) (f : String → List ClosedPosition) :
    sumClosedQty (l.flatMap f) = (l.map (fun a => sumClosedQty (f a))).sum := by
  induction l with
  | nil => simp [sumClosedQty]
  | cons a rest ih => simp [List.flatMap_cons, sumClosedQty_append, ih]

theorem sum_map_if_single {s : String} {x : ℚ} (l : List String) (hnd : l.Nodup) (hmem : s ∈ l) :
    (l.map (fun a => if a = s then x else 0)).sum = x := by
  induction l with
  | nil => cases hmem
  | cons a rest ih =>
    by_cases ha : a = s
    · subst ha
      simp only [List.map_cons, List.sum_cons, if_pos rfl]
      have hz : (List.map (fun b => if b = a then x else 0) rest).sum = 0 := by
        apply List.sum_eq_zero
        intro y hy
        rcases List.mem_map.mp hy with ⟨b, hb, rfl⟩
        have hne : b ≠ a := fun hba => (List.nodup_cons.mp hnd).1 (hba ▸ hb)
        simp [hne]
      rw [hz]
      simp
    · have hmem' : s ∈ rest := by
        rcases List.mem_cons.mp hmem with h | h
        · exact absurd h.symm ha
        · exact h
      simp only [List.map_cons, List.sum_cons, if_neg ha]
      rw [ih (List.nodup_cons.mp hnd).2 hmem']
      ring

/-- The still-open residual quantity `MatchPositions` leaves behind for one
symbol: the fill quantity remaining in the `openBuys` and `openSells` queues
after the per-symbol loop. -/
def openResidual (trades : List TradeRecord) (s : String) : ℚ :=
  sumQty (matchSymbolTrades (trades.filter (fun t => t.symbol = s))).2.1 +
    sumQty (matchSymbolTrades (trades.filter (fun t => t.symbol = s))).2.2

/-- Quantity conservation for `MatchPositions`, with the matched quantity
counted once for the opening side and once for the closing side. -/
theorem matchPositions_conservation (trades : List TradeRecord) (s : String)
    (hq : ∀ t ∈ trades, 0 ≤ t.quantity) :
    2 * sumClosedQty ((MatchPositions trades).filter (fun c => c.symbol = s)) +
      openResidual trades s = sumQty (trades.filter (fun t => t.symbol = s)) := by
  have hgroup := processTrades_conservation (sortByTs (trades.filter (fun t => t.symbol = s))) [] []
    (by
      intro t ht
      have := (sortByTs_perm _).mem_iff.mp ht
      exact hq t (List.mem_filter.mp this).1)
  simp only [sumQty_nil, add_zero] at hgroup
  have hsortq : sumQty (sortByTs (trades.filter (fun t => t.symbol = s))) =
      sumQty (trades.filter (fun t => t.symbol = s)) := sumQty_perm (sortByTs_perm _)
  rw [hsortq] at hgroup
  have hstep1 : sumClosedQty ((MatchPositions trades).filter (fun c => c.symbol = s)) =
      sumClosedQty (((symbolsOf trades).flatMap
        (fun s' => (matchSymbolTrades (trades.filter (fun t => t.symbol = s'))).1)).filter
          (fun c => c.symbol = s)) := by
    apply sumClosedQty_perm
    exact (List.perm_insertionSort closeDescLE _).filter _
  have hstep2 : (((symbolsOf trades).flatMap
        (fun s' => (matchSymbolTrades (trades.filter (fun t => t.symbol = s'))).1)).filter
          (fun c => c.symbol = s)) =
      ((symbolsOf trades).flatMap
        (fun s' => ((matchSymbolTrades (trades.filter (fun t => t.symbol = s'))).1).filter
          (fun c => c.symbol = s))) := by
    rw [List.filter_flatMap]
  have hstep3 : ∀ s' : String,
      ((matchSymbolTrades (trades.filter (fun t => t.symbol = s'))).1).filter
          (fun c => c.symbol = s) =
        (if s' = s then (matchSymbolTrades (trades.filter (fun t => t.symbol = s))).1 else []) := by
    intro s'
    by_cases h : s' = s
    · subst h
      rw [if_pos rfl]
      apply List.filter_eq_self.mpr
      intro c hc
      exact decide_eq_true (group_closed_symbol trades s' c hc)
    · rw [if_neg h]
      apply List.filter_eq_nil_iff.mpr
      intro c hc
      have := group_closed_symbol trades s' c hc
      simp [this, h]
  by_cases hmem : s ∈ symbolsOf trades
  · rw [hstep1, hstep2]
    have hrw : ((symbolsOf trades).flatMap
        (fun s' => ((matchSymbolTrades (trades.filter (fun t => t.symbol = s'))).1).filter
          (fun c => c.symbol = s))) =
        ((symbolsOf trades).flatMap
          (fun s' => if s' = s then (matchSymbolTrades (trades.filter (fun t => t.symbol = s))).1 else [])) := by
      congr 1
      funext s'
      exact hstep3 s'
    rw [hrw, sumClosedQty_flatMap]
    have hnd : (symbolsOf trades).Nodup := List.nodup_dedup _
    have hsum : ((symbolsOf trades).map
        (fun s' => sumClosedQty (if s' = s then (matchSymbolTrades (trades.filter (fun t => t.symbol = s))).1 else []))).sum =
        sumClosedQty (matchSymbolTrades (trades.filter (fun t => t.symbol = s))).1 := by
      have hfun : (fun s' => sumClosedQty (if s' = s then (matchSymbolTrades (trades.filter (fun t => t.symbol = s))).1 else [])) =
          (fun s' => if s' = s then sumClosedQty (matchSymbolTrades (trades.filter (fun t => t.symbol = s))).1 else 0) := by
        funext s'
        by_cases h : s' = s <;> simp [h, sumClosedQty_nil]
      rw [hfun]
      exact sum_map_if_single _ hnd hmem
    rw [hsum]
    unfold openResidual matchSymbolTrades at *
    linarith
  · have hfe : trades.filter (fun t => t.symbol = s) = [] := by
      apply List.filter_eq_nil_iff.mpr
      intro t ht hts
      apply hmem
      unfold symbolsOf
      rw [List.mem_dedup]
      exact List.mem_map.mpr ⟨t, ht, of_decide_eq_true hts⟩
    rw [hstep1, hstep2]
    have hz : ((symbolsOf trades).flatMap
        (fun s' => ((matchSymbolTrades (trades.filter (fun t => t.symbol = s'))).1).filter
          (fun c => c.symbol = s))) = [] := by
      apply List.flatMap_eq_nil_iff.mpr
      intro s' hs'
      rw [hstep3 s']
      have hne : s' ≠ s := fun h => hmem (h ▸ hs')
      rw [if_neg hne]
    rw [hz]
    unfold openResidual
    rw [hfe]
    simp [matchSymbolTrades, sortByTs, processTrades, sumQty_nil, sumClosedQty_nil,
      List.insertionSort]

/-! ## The spec's end-to-end fill scenario and claim theorems C1-C3 -/

/-- The `buy 1.0 BTC @ 100 fee 0.1` fill of the spec's end-to-end scenario. -/
def specBuy : TradeRecord :=
  { symbol := "BTCUSDT", price := 100, quantity := 1, commission := 0.1,
    isBuyer := true, timestamp := 1 }

/-- The `sell 0.4 BTC @ 110 fee 0.05` fill of the spec's end-to-end scenario. -/
def specSell1 : TradeRecord :=
  { symbol := "BTCUSDT", price := 110, quantity := 0.4, commission := 0.05,
    isBuyer := false, timestamp := 2 }

/-- The `sell 0.6 BTC @ 90 fee 0.05` fill of the spec's end-to-end scenario. -/
def specSell2 : TradeRecord :=
  { symbol := "BTCUSDT", price := 90, quantity := 0.6, commission := 0.05,
    isBuyer := false, timestamp := 3 }

/-- Two buy fills sharing one timestamp, plus a later sell: the tie makes the
time sort order depend on the input arrangement. -/
def tieBuyA : TradeRecord :=
  { symbol := "BTCUSDT", price := 100, quantity := 1, commission := 0,
    isBuyer := true, timestamp := 10 }

/-- Second equal-timestamp buy at a different price. -/
def tieBuyB : TradeRecord :=
  { symbol := "BTCUSDT", price := 200, quantity := 1, commission := 0,
    isBuyer := true, timestamp := 10 }

/-- The sell that closes one of the two tied lots. -/
def tieSell : TradeRecord :=
  { symbol := "BTCUSDT", price := 150, quantity := 1, commission := 0,
    isBuyer := false, timestamp := 20 }

/-- C1 (counterexample): swapping two same-symbol fills that share a timestamp
changes the multiset of `ClosedPosition` net profits ({50} versus {-50}), so
`MatchPositions` is not invariant under arbitrary permutations of the fill set:
sorting ascending by timestamp does not determine the order of equal-timestamp
fills. -/
theorem C1_counterexample_equal_timestamps :
    List.Perm [tieBuyA, tieBuyB, tieSell] [tieBuyB, tieBuyA, tieSell] ∧
    ((((MatchPositions [tieBuyA, tieBuyB, tieSell]).map (fun c => c.netProfit) : List ℚ)) : Multiset ℚ) ≠
      ((((MatchPositions [tieBuyB, tieBuyA, tieSell]).map (fun c => c.netProfit) : List ℚ)) : Multiset ℚ) := by
  constructor
  · exact List.Perm.swap' _ _ (List.Perm.refl _)
  · have h1 : (MatchPositions [tieBuyA, tieBuyB, tieSell]).map (fun c => c.netProfit) = [50] := by
      norm_num [MatchPositions, matchSymbolTrades, sortByTs, sortByCloseDesc, processTrades,
        matchFills, matchLoop, fmin, symbolsOf, tsLE, closeDescLE,
        List.insertionSort, List.orderedInsert, List.filter, List.dedup, List.flatMap,
        tieBuyA, tieBuyB, tieSell]
    have h2 : (MatchPositions [tieBuyB, tieBuyA, tieSell]).map (fun c => c.netProfit) = [-50] := by
      norm_num [MatchPositions, matchSymbolTrades, sortByTs, sortByCloseDesc, processTrades,
        matchFills, matchLoop, fmin, symbolsOf, tsLE, closeDescLE,
        List.insertionSort, List.orderedInsert, List.filter, List.dedup, List.flatMap,
        tieBuyA, tieBuyB, tieSell]
    rw [h1, h2]
    intro h
    rw [Multiset.coe_eq_coe, List.perm_singleton] at h
    have h50 : (50 : ℚ) = -50 := by injection h
    norm_num at h50

/-- C1 (amended): for fills whose timestamps are pairwise distinct within each
symbol, every permutation of the fill list yields the same multiset of
`ClosedPosition` net profits, and in particular the same net-profit sum, because
the matcher groups fills by symbol and re-sorts each group ascending by
timestamp. -/
theorem C1_matchPositions_perm_invariant {l₁ l₂ : List TradeRecord}
    (hperm : List.Perm l₁ l₂)
    (hts : ∀ s : String, ((l₁.filter (fun t => t.symbol = s)).map (fun t => t.timestamp)).Nodup) :
    (((MatchPositions l₁).map (fun c => c.netProfit) : List ℚ) : Multiset ℚ) =
      (((MatchPositions l₂).map (fun c => c.netProfit) : List ℚ) : Multiset ℚ) ∧
    ((MatchPositions l₁).map (fun c => c.netProfit)).sum =
      ((MatchPositions l₂).map (fun c => c.netProfit)).sum := by
  have hp := (matchPositions_perm hperm hts).map (fun c => c.netProfit)
  exact ⟨Multiset.coe_eq_coe.mpr hp, hp.sum_eq⟩

/-- C1 (witness): the invariance theorem applied to a concrete two-fill
permutation with distinct timestamps. -/
theorem C1_witness :
    List.Perm [specBuy, specSell1] [specSell1, specBuy] ∧
    (∀ s : String, (([specBuy, specSell1].filter (fun t => t.symbol = s)).map (fun t => t.timestamp)).Nodup) ∧
    (((MatchPositions [specBuy, specSell1]).map (fun c => c.netProfit) : List ℚ) : Multiset ℚ) =
      (((MatchPositions [specSell1, specBuy]).map (fun c => c.netProfit) : List ℚ) : Multiset ℚ) := by
  have hperm : List.Perm [specBuy, specSell1] [specSell1, specBuy] := List.Perm.swap _ _ _
  have hts : ∀ s : String,
      (([specBuy, specSell1].filter (fun t => t.symbol = s)).map (fun t => t.timestamp)).Nodup := by
    intro s
    by_cases h : s = "BTCUSDT"
    · subst h
      norm_num [specBuy, specSell1, List.filter]
    · simp [specBuy, specSell1, List.filter, show ¬ ("BTCUSDT" = s) from fun hh => h hh.symm]
  exact ⟨hperm, hts, (C1_matchPositions_perm_invariant hperm hts).1⟩

/-- C2: on the spec's scenario `[buy 1.0 @ 100 fee 0.1, sell 0.4 @ 110 fee 0.05,
sell 0.6 @ 90 fee 0.05]` the code returns two ClosedPositions with no residual
open quantity, and the 0.4 lot matches the spec (fees 0.09, net profit 3.91) —
but the 0.6 lot gets total fees 0.15 and net profit -6.15, not the specified
0.11 / -6.11: when the buy lot is partially consumed its stored quantity is
reduced to 0.6 while its full 0.1 commission is retained, so the second match
apportions `0.1 × (0.6 / 0.6)` instead of `0.1 × (0.6 / 1.0)`, double-counting
the opening commission. -/
theorem C2_spec_scenario_code_output :
    MatchPositions [specBuy, specSell1, specSell2] =
      [{ symbol := "BTCUSDT", openTime := 1, closeTime := 3, duration := 2,
         totalQuantity := 0.6, avgOpenPrice := 100, avgClosePrice := 90,
         totalFees := 0.15, netProfit := -6.15 },
       { symbol := "BTCUSDT", openTime := 1, closeTime := 2, duration := 1,
         totalQuantity := 0.4, avgOpenPrice := 100, avgClosePrice := 110,
         totalFees := 0.09, netProfit := 3.91 }] ∧
    (matchSymbolTrades [specBuy, specSell1, specSell2]).2.1 = [] ∧
    (matchSymbolTrades [specBuy, specSell1, specSell2]).2.2 = [] ∧
    (0.15 : ℚ) ≠ 0.11 ∧ (-6.15 : ℚ) ≠ -6.11 := by
  refine ⟨?_, ?_, ?_, by norm_num, by norm_num⟩ <;>
    norm_num [MatchPositions, matchSymbolTrades, sortByTs, sortByCloseDesc, processTrades,
      matchFills, matchLoop, fmin, symbolsOf, tsLE, closeDescLE,
      List.insertionSort, List.orderedInsert, List.filter, List.dedup, List.flatMap,
      specBuy, specSell1, specSell2]

/-- C3 (counterexample): on the spec's own scenario the closed positions for
BTCUSDT carry total matched quantity 1 and the residual is 0, while the fills
sum to 2 — matched quantity counted once does not balance the fill ledger, since
each matched unit consumes a unit of the opening fill and a unit of the closing
fill. -/
theorem C3_counterexample_spec_scenario :
    sumClosedQty ((MatchPositions [specBuy, specSell1, specSell2]).filter
        (fun c => c.symbol = "BTCUSDT")) +
      openResidual [specBuy, specSell1, specSell2] "BTCUSDT" = 1 ∧
    sumQty ([specBuy, specSell1, specSell2].filter (fun t => t.symbol = "BTCUSDT")) = 2 ∧
    (1 : ℚ) ≠ 2 := by
  refine ⟨?_, ?_, by norm_num⟩ <;>
    norm_num [MatchPositions, matchSymbolTrades, sortByTs, sortByCloseDesc, processTrades,
      matchFills, matchLoop, fmin, symbolsOf, tsLE, closeDescLE, openResidual,
      sumClosedQty, sumQty,
      List.insertionSort, List.orderedInsert, List.filter, List.dedup, List.flatMap,
      specBuy, specSell1, specSell2]

/-- C3 (amended): for fills with non-negative quantities, twice the total
matched quantity over the ClosedPositions of a symbol plus the residual
still-open quantity equals the total fill quantity of that symbol. -/
theorem C3_matchPositions_conservation (trades : List TradeRecord) (s : String)
    (hq : ∀ t ∈ trades, 0 ≤ t.quantity) :
    2 * sumClosedQty ((MatchPositions trades).filter (fun c => c.symbol = s)) +
      openResidual trades s = sumQty (trades.filter (fun t => t.symbol = s)) :=
  matchPositions_conservation trades s hq

/-- C3 (witness): the conservation theorem applied to the concrete scenario. -/
theorem C3_witness :
    (∀ t ∈ [specBuy, specSell1, specSell2], 0 ≤ t.quantity) ∧
    (2 * sumClosedQty ((MatchPositions [specBuy, specSell1, specSell2]).filter
        (fun c => c.symbol = "BTCUSDT")) +
      openResidual [specBuy, specSell1, specSell2] "BTCUSDT" =
      sumQty ([specBuy, specSell1, specSell2].filter (fun t => t.symbol = "BTCUSDT"))) := by
  have hq : ∀ t ∈ [specBuy, specSell1, specSell2], 0 ≤ t.quantity := by
    intro t ht
    simp only [List.mem_cons, List.not_mem_nil, or_false] at ht
    rcases ht with rfl | rfl | rfl <;> norm_num [specBuy, specSell1, specSell2]
  exact ⟨hq, C3_matchPositions_conservation _ _ hq⟩



/-! ## Decision validation (decision/engine.go, `validateDecision`) and claims C4, C5, C10 -/


structure Decision where
  symbol : String
  action : String
  leverage : ℤ
  positionSizeUSD : ℚ
  stopLoss : ℚ
  takeProfit : ℚ
  newStopLoss : ℚ
  confidence : ℤ
  riskUSD : ℚ
deriving DecidableEq

def validActions : List String :=
  ["open_long", "open_short", "close_long", "close_short",
   "partial_close_long", "partial_close_short", "hold", "wait", "move_sl_to_breakeven"]

/-- `maxLeverage` local of validateDecision: BTC/ETH use the btcEthLeverage cap. -/
def maxLeverageOf (d : Decision) (btcEthLeverage altcoinLeverage : ℤ) : ℤ :=
  if d.symbol = "BTCUSDT" ∨ d.symbol = "ETHUSDT" then btcEthLeverage else altcoinLeverage

/-- `maxPositionValue` local of validateDecision: 10x equity for BTC/ETH, 1.5x else. -/
def maxPositionValueOf (d : Decision) (accountEquity : ℚ) : ℚ :=
  if d.symbol = "BTCUSDT" ∨ d.symbol = "ETHUSDT" then accountEquity * 10 else accountEquity * 1.5

/-- `riskPercent` of validateDecision, relative to the live market price. -/
def riskPercentOf (d : Decision) (currentMarketPrice : ℚ) : ℚ :=
  if d.action = "open_long" then
    (currentMarketPrice - d.stopLoss) / currentMarketPrice * 100
  else
    (d.stopLoss - currentMarketPrice) / currentMarketPrice * 100

/-- `rewardPercent` of validateDecision, relative to the live market price. -/
def rewardPercentOf (d : Decision) (currentMarketPrice : ℚ) : ℚ :=
  if d.action = "open_long" then
    (d.takeProfit - currentMarketPrice) / currentMarketPrice * 100
  else
    (currentMarketPrice - d.takeProfit) / currentMarketPrice * 100

/-- `riskRewardRatio` of validateDecision (0 when riskPercent is not positive). -/
def riskRewardRatioOf (d : Decision) (currentMarketPrice : ℚ) : ℚ :=
  if 0 < riskPercentOf d currentMarketPrice then
    rewardPercentOf d currentMarketPrice / riskPercentOf d currentMarketPrice
  else 0

/-- The tail of the open branch of validateDecision, from the point where the
live market price has been fetched: price-relative stop/target ordering and the
risk/reward hard constraint. -/
def validateOpenPriceChecks (d : Decision) (currentMarketPrice : ℚ) :
    Except String Unit :=
  if d.action = "open_long" ∧ currentMarketPrice ≤ d.stopLoss then
    Except.error "做多时止损价必须小于当前市场价"
  else if d.action = "open_long" ∧ d.takeProfit ≤ currentMarketPrice then
    Except.error "做多时止盈价必须大于当前市场价"
  else if d.action ≠ "open_long" ∧ d.stopLoss ≤ currentMarketPrice then
    Except.error "做空时止损价必须大于当前市场价"
  else if d.action ≠ "open_long" ∧ currentMarketPrice ≤ d.takeProfit then
    Except.error "做空时止盈价必须小于当前市场价"
  else if riskRewardRatioOf d currentMarketPrice < 1.9 then
    Except.error "风险回报比过低，必须大于等于1.9:1"
  else Except.ok ()

/-- The open_long / open_short branch of validateDecision.  `marketGet` stands
for the live `market.Get(d.Symbol)` call (`none` = fetch error) returning the
current price. -/
def validateOpenDecision (d : Decision) (accountEquity : ℚ)
    (btcEthLeverage altcoinLeverage : ℤ) (marketGet : String → Option ℚ) :
    Except String Unit :=
  if d.leverage ≤ 0 ∨ maxLeverageOf d btcEthLeverage altcoinLeverage < d.leverage then
    Except.error "杠杆必须在1-maxLeverage之间"
  else if d.positionSizeUSD ≤ 0 then
    Except.error "仓位大小必须大于0"
  else if d.positionSizeUSD < 20 then
    Except.error "仓位价值必须不小于20 USDT"
  else if maxPositionValueOf d accountEquity + maxPositionValueOf d accountEquity * 0.01 <
      d.positionSizeUSD then
    Except.error "单币种仓位价值不能超过上限"
  else if d.stopLoss ≤ 0 ∨ d.takeProfit ≤ 0 then
    Except.error "止损和止盈必须大于0"
  else if d.action = "open_long" ∧ d.takeProfit ≤ d.stopLoss then
    Except.error "做多时止损价必须小于止盈价"
  else if d.action ≠ "open_long" ∧ d.stopLoss ≤ d.takeProfit then
    Except.error "做空时止损价必须大于止盈价"
  else
    match marketGet d.symbol with
    | none => Except.error "获取当前市场数据失败"
    | some currentMarketPrice => validateOpenPriceChecks d currentMarketPrice

/-- `validateDecision` from decision/engine.go. -/
def validateDecision (d : Decision) (accountEquity : ℚ)
    (btcEthLeverage altcoinLeverage : ℤ) (marketGet : String → Option ℚ) :
    Except String Unit :=
  if ¬ validActions.contains d.action then
    Except.error ("无效的action: " ++ d.action)
  else if d.action = "open_long" ∨ d.action = "open_short" then
    validateOpenDecision d accountEquity btcEthLeverage altcoinLeverage marketGet
  else if d.action = "move_sl_to_breakeven" then
    if d.newStopLoss ≤ 0 then Except.error "移动止损价(NewStopLoss)必须大于0"
    else Except.ok ()
  else
    Except.ok ()

theorem validateOpenDecision_ok_inversion (d : Decision) (accountEquity : ℚ)
    (btcEthLeverage altcoinLeverage : ℤ) (marketGet : String → Option ℚ)
    (hok : validateOpenDecision d accountEquity btcEthLeverage altcoinLeverage marketGet =
      Except.ok ()) :
    (0 < d.leverage ∧ 0 < d.positionSizeUSD ∧ 0 < d.stopLoss ∧ 0 < d.takeProfit) ∧
    (d.action = "open_long" → d.stopLoss < d.takeProfit) ∧
    (d.action ≠ "open_long" → d.takeProfit < d.stopLoss) := by
  unfold validateOpenDecision at hok
  split_ifs at hok with h1 h2 h3 h4 h5 h6 h7
  push_neg at h1 h2 h5
  refine ⟨⟨h1.1, h2, h5.1, h5.2⟩, ?_, ?_⟩
  · intro hl
    by_contra hc
    exact h6 ⟨hl, le_of_not_lt hc⟩
  · intro hl
    by_contra hc
    exact h7 ⟨hl, le_of_not_lt hc⟩


theorem validateDecision_open_eq (d : Decision) (accountEquity : ℚ)
    (btcEthLeverage altcoinLeverage : ℤ) (marketGet : String → Option ℚ)
    (h : d.action = "open_long" ∨ d.action = "open_short") :
    validateDecision d accountEquity btcEthLeverage altcoinLeverage marketGet =
      validateOpenDecision d accountEquity btcEthLeverage altcoinLeverage marketGet := by
  have hc : d.action ∈ validActions := by
    rcases h with h | h <;> rw [h] <;> decide
  unfold validateDecision
  simp [hc, h]

/-- C4: for every open_long or open_short decision, validation rejects it when
leverage, position size, stop-loss and take-profit are not all strictly
positive; a long with stop-loss ≥ take-profit is rejected, a short with
stop-loss ≤ take-profit is rejected; and a decision whose action is "hold" is
never rejected, regardless of its other fields. -/
theorem C4_validateDecision_open_positivity_ordering_hold (d : Decision) (accountEquity : ℚ) (bl al : ℤ) (mkt : String → Option ℚ) :
    ((d.action = "open_long" ∨ d.action = "open_short") →
      (¬(0 < d.leverage ∧ 0 < d.positionSizeUSD ∧ 0 < d.stopLoss ∧ 0 < d.takeProfit) →
        validateDecision d accountEquity bl al mkt ≠ Except.ok ()) ∧
      (d.action = "open_long" → d.takeProfit ≤ d.stopLoss →
        validateDecision d accountEquity bl al mkt ≠ Except.ok ()) ∧
      (d.action = "open_short" → d.stopLoss ≤ d.takeProfit →
        validateDecision d accountEquity bl al mkt ≠ Except.ok ())) ∧
    (d.action = "hold" → validateDecision d accountEquity bl al mkt = Except.ok ()) := by
  constructor
  · intro ha
    refine ⟨?_, ?_, ?_⟩
    · intro hno hok
      rw [validateDecision_open_eq d accountEquity bl al mkt ha] at hok
      have hinv := validateOpenDecision_ok_inversion d accountEquity bl al mkt hok
      exact hno hinv.1
    · intro hl htp hok
      rw [validateDecision_open_eq d accountEquity bl al mkt ha] at hok
      have hinv := validateOpenDecision_ok_inversion d accountEquity bl al mkt hok
      have := hinv.2.1 hl
      linarith
    · intro hs hsl hok
      rw [validateDecision_open_eq d accountEquity bl al mkt ha] at hok
      have hinv := validateOpenDecision_ok_inversion d accountEquity bl al mkt hok
      have hne : d.action ≠ "open_long" := by rw [hs]; decide
      have := hinv.2.2 hne
      linarith
  · intro hh
    simp [validateDecision, validActions, hh]

/-- C10: for every decision whose action is close_long, close_short,
partial_close_long, partial_close_short or wait, validateDecision returns
success unconditionally — no numeric field is examined for these actions. -/
theorem C10_close_wait_actions_pass_unconditionally (d : Decision) (accountEquity : ℚ) (bl al : ℤ) (mkt : String → Option ℚ)
    (h : d.action = "close_long" ∨ d.action = "close_short" ∨
      d.action = "partial_close_long" ∨ d.action = "partial_close_short" ∨
      d.action = "wait") :
    validateDecision d accountEquity bl al mkt = Except.ok () := by
  rcases h with h | h | h | h | h <;> simp [validateDecision, validActions, h]


/-- C5: for an open decision passing the positivity, range and ordering
checks, the validator computes risk% and reward% relative to the live market
price `p` returned by the market lookup at validation time (`riskPercentOf` /
`rewardPercentOf`), accepts exactly when reward% / risk% is at least 1.9, and
the outcome never depends on the decision's confidence value. -/
theorem C5_riskReward_live_price_threshold (d : Decision) (accountEquity : ℚ) (bl al : ℤ)
    (mkt : String → Option ℚ) (p : ℚ)
    (ha : d.action = "open_long" ∨ d.action = "open_short")
    (hmkt : mkt d.symbol = some p)
    (hlev : 0 < d.leverage ∧ d.leverage ≤ maxLeverageOf d bl al)
    (hps : 20 ≤ d.positionSizeUSD ∧ d.positionSizeUSD ≤
      maxPositionValueOf d accountEquity + maxPositionValueOf d accountEquity * 0.01)
    (hsl : 0 < d.stopLoss) (htp : 0 < d.takeProfit)
    (hlong : d.action = "open_long" → d.stopLoss < p ∧ p < d.takeProfit)
    (hshort : d.action = "open_short" → d.takeProfit < p ∧ p < d.stopLoss) :
    (validateDecision d accountEquity bl al mkt = Except.ok () ↔
      1.9 ≤ rewardPercentOf d p / riskPercentOf d p) ∧
    (∀ c : ℤ, validateDecision { d with confidence := c } accountEquity bl al mkt =
      validateDecision d accountEquity bl al mkt) := by
  have hlongshort : d.action ≠ "open_long" → d.action = "open_short" := by
    rcases ha with h | h
    · intro hne; exact absurd h hne
    · intro _; exact h
  have hppos : 0 < p := by
    by_cases hl : d.action = "open_long"
    · have := hlong hl
      linarith
    · have := hshort (hlongshort hl)
      linarith
  have hrisk : 0 < riskPercentOf d p := by
    unfold riskPercentOf
    by_cases hl : d.action = "open_long"
    · rw [if_pos hl]
      have hlt := (hlong hl).1
      exact mul_pos (div_pos (by linarith) hppos) (by norm_num)
    · rw [if_neg hl]
      have hlt := (hshort (hlongshort hl)).2
      exact mul_pos (div_pos (by linarith) hppos) (by norm_num)
  constructor
  · rw [validateDecision_open_eq d accountEquity bl al mkt ha]
    unfold validateOpenDecision
    rw [if_neg (by push_neg; omega)]
    rw [if_neg (by linarith [hps.1] : ¬ d.positionSizeUSD ≤ 0)]
    rw [if_neg (by linarith [hps.1] : ¬ d.positionSizeUSD < 20)]
    rw [if_neg (by linarith [hps.2] : ¬ maxPositionValueOf d accountEquity +
      maxPositionValueOf d accountEquity * 0.01 < d.positionSizeUSD)]
    rw [if_neg (by push_neg; exact ⟨hsl, htp⟩)]
    rw [if_neg (by
      rintro ⟨hl, hc⟩
      have := hlong hl
      linarith)]
    rw [if_neg (by
      rintro ⟨hl, hc⟩
      have := hshort (hlongshort hl)
      linarith)]
    rw [hmkt]
    show validateOpenPriceChecks d p = Except.ok () ↔ _
    unfold validateOpenPriceChecks
    rw [if_neg (by
      rintro ⟨hl, hc⟩
      have := hlong hl
      linarith)]
    rw [if_neg (by
      rintro ⟨hl, hc⟩
      have := hlong hl
      linarith)]
    rw [if_neg (by
      rintro ⟨hl, hc⟩
      have := hshort (hlongshort hl)
      linarith)]
    rw [if_neg (by
      rintro ⟨hl, hc⟩
      have := hshort (hlongshort hl)
      linarith)]
    unfold riskRewardRatioOf
    rw [if_pos hrisk]
    by_cases hrr : rewardPercentOf d p / riskPercentOf d p < 1.9
    · rw [if_pos hrr]
      constructor
      · intro hcontra
        exact absurd hcontra (by simp)
      · intro hge
        exfalso
        linarith
    · rw [if_neg hrr]
      simp [le_of_not_lt hrr]
  · intro c
    rfl


/-- An open_long decision with non-positive leverage, for the C4 witness. -/
def badOpenDecision : Decision :=
  { symbol := "XRPUSDT", action := "open_long", leverage := 0, positionSizeUSD := 100,
    stopLoss := 90, takeProfit := 120, newStopLoss := 0, confidence := 50, riskUSD := 0 }

/-- A hold decision carrying arbitrary negative numeric fields. -/
def holdDecision : Decision :=
  { symbol := "XRPUSDT", action := "hold", leverage := -5, positionSizeUSD := -100,
    stopLoss := -90, takeProfit := -120, newStopLoss := -1, confidence := -3, riskUSD := -7 }

/-- A fully-valid open_long decision (risk 10%, reward 20% at price 100). -/
def goodOpenDecision : Decision :=
  { symbol := "XRPUSDT", action := "open_long", leverage := 5, positionSizeUSD := 100,
    stopLoss := 90, takeProfit := 120, newStopLoss := 0, confidence := 50, riskUSD := 0 }

/-- A close_long decision with every numeric field negative. -/
def closeDecisionNegative : Decision :=
  { symbol := "XRPUSDT", action := "close_long", leverage := -3, positionSizeUSD := -50,
    stopLoss := -1, takeProfit := -2, newStopLoss := -4, confidence := -5, riskUSD := -6 }

/-- C4 (witness): the theorem applied to a zero-leverage open_long decision and
to a hold decision with negative fields. -/
theorem C4_witness :
    (badOpenDecision.action = "open_long" ∨ badOpenDecision.action = "open_short") ∧
    ¬(0 < badOpenDecision.leverage ∧ 0 < badOpenDecision.positionSizeUSD ∧
      0 < badOpenDecision.stopLoss ∧ 0 < badOpenDecision.takeProfit) ∧
    validateDecision badOpenDecision 1000 20 10 (fun _ => some 100) ≠ Except.ok () ∧
    holdDecision.action = "hold" ∧
    validateDecision holdDecision 1000 20 10 (fun _ => some 100) = Except.ok () := by
  have ha : badOpenDecision.action = "open_long" ∨ badOpenDecision.action = "open_short" :=
    Or.inl rfl
  have hno : ¬(0 < badOpenDecision.leverage ∧ 0 < badOpenDecision.positionSizeUSD ∧
      0 < badOpenDecision.stopLoss ∧ 0 < badOpenDecision.takeProfit) := by
    rintro ⟨hl, -⟩
    exact absurd hl (by norm_num [badOpenDecision])
  exact ⟨ha, hno, ((C4_validateDecision_open_positivity_ordering_hold badOpenDecision 1000 20 10 (fun _ => some 100)).1 ha).1 hno,
    rfl, (C4_validateDecision_open_positivity_ordering_hold holdDecision 1000 20 10 (fun _ => some 100)).2 rfl⟩

/-- C5 (witness): the theorem applied to a concrete valid open_long decision at
live price 100. -/
theorem C5_witness :
    ((fun _ : String => some (100:ℚ)) goodOpenDecision.symbol = some 100) ∧
    (0 < goodOpenDecision.leverage ∧ goodOpenDecision.leverage ≤ maxLeverageOf goodOpenDecision 20 10) ∧
    (20 ≤ goodOpenDecision.positionSizeUSD ∧ goodOpenDecision.positionSizeUSD ≤
      maxPositionValueOf goodOpenDecision 1000 + maxPositionValueOf goodOpenDecision 1000 * 0.01) ∧
    0 < goodOpenDecision.stopLoss ∧ 0 < goodOpenDecision.takeProfit ∧
    (validateDecision goodOpenDecision 1000 20 10 (fun _ => some 100) = Except.ok () ↔
      1.9 ≤ rewardPercentOf goodOpenDecision 100 / riskPercentOf goodOpenDecision 100) := by
  have ha : goodOpenDecision.action = "open_long" ∨ goodOpenDecision.action = "open_short" :=
    Or.inl rfl
  have hmkt : (fun _ : String => some (100:ℚ)) goodOpenDecision.symbol = some 100 := rfl
  have hlev : 0 < goodOpenDecision.leverage ∧
      goodOpenDecision.leverage ≤ maxLeverageOf goodOpenDecision 20 10 := by
    simp [goodOpenDecision, maxLeverageOf]
  have hps : 20 ≤ goodOpenDecision.positionSizeUSD ∧ goodOpenDecision.positionSizeUSD ≤
      maxPositionValueOf goodOpenDecision 1000 + maxPositionValueOf goodOpenDecision 1000 * 0.01 := by
    simp [goodOpenDecision, maxPositionValueOf]
    norm_num
  have hsl : 0 < goodOpenDecision.stopLoss := by norm_num [goodOpenDecision]
  have htp : 0 < goodOpenDecision.takeProfit := by norm_num [goodOpenDecision]
  have hlong : goodOpenDecision.action = "open_long" →
      goodOpenDecision.stopLoss < 100 ∧ (100:ℚ) < goodOpenDecision.takeProfit := by
    intro _
    norm_num [goodOpenDecision]
  have hshort : goodOpenDecision.action = "open_short" →
      goodOpenDecision.takeProfit < 100 ∧ (100:ℚ) < goodOpenDecision.stopLoss := by
    intro hcontra
    exact absurd hcontra (by simp [goodOpenDecision])
  exact ⟨hmkt, hlev, hps, hsl, htp,
    (C5_riskReward_live_price_threshold goodOpenDecision 1000 20 10 (fun _ => some 100) 100 ha hmkt hlev hps hsl htp
      hlong hshort).1⟩

/-- C10 (witness): a close_long decision with all numeric fields negative still
passes validation. -/
theorem C10_witness :
    closeDecisionNegative.action = "close_long" ∧
    closeDecisionNegative.leverage < 0 ∧ closeDecisionNegative.positionSizeUSD < 0 ∧
    closeDecisionNegative.stopLoss < 0 ∧ closeDecisionNegative.takeProfit < 0 ∧
    closeDecisionNegative.newStopLoss < 0 ∧ closeDecisionNegative.confidence < 0 ∧
    validateDecision closeDecisionNegative 1000 20 10 (fun _ => none) = Except.ok () := by
  refine ⟨rfl, ?_, ?_, ?_, ?_, ?_, ?_,
    C10_close_wait_actions_pass_unconditionally closeDecisionNegative 1000 20 10 (fun _ => none) (Or.inl rfl)⟩ <;>
    norm_num [closeDecisionNegative]



/-! ## Response extraction and the correction-retry loop (decision/engine.go) -/

/-- Decidable equality for `Except`, used to evaluate the extraction model on
concrete inputs. -/
instance {α β : Type} [DecidableEq α] [DecidableEq β] : DecidableEq (Except α β) :=
  fun a b =>
    match a, b with
    | Except.ok x, Except.ok y =>
      if h : x = y then isTrue (by rw [h]) else isFalse (by simp [h])
    | Except.error x, Except.error y =>
      if h : x = y then isTrue (by rw [h]) else isFalse (by simp [h])
    | Except.ok _, Except.error _ => isFalse (by simp)
    | Except.error _, Except.ok _ => isFalse (by simp)

/-- Whitespace test modelling `strings.TrimSpace` (the whitespace actually
occurring in the payloads: space, newline, tab, carriage return). -/
def isSpaceChar (c : Char) : Bool :=
  c = ' ' || c = '\n' || c = '\t' || c = '\r'

/-- Trim leading and trailing whitespace from a character list. -/
def trimChars (l : List Char) : List Char :=
  ((l.dropWhile isSpaceChar).reverse.dropWhile isSpaceChar).reverse

/-- `strings.TrimSpace`. -/
def trimString (s : String) : String := String.mk (trimChars s.toList)

/-- Character-list substring search standing for Go `strings.Index`: index of
the first occurrence of `needle`, `none` when absent (Go returns -1). -/
def findSubstr (needle : List Char) : List Char → Option Nat
  | [] => if needle.isPrefixOf ([] : List Char) then some 0 else none
  | c :: t =>
    if needle.isPrefixOf (c :: t) then some 0
    else (findSubstr needle t).map (fun i => i + 1)

def jsonCodeBlockStart : List Char := "```json".toList

def jsonCodeBlockEnd : List Char := "```".toList

/-- `extractCoTTrace`: everything before the first fenced JSON block; the whole
response when the block is missing or starts at index 0 (Go tests `jsonStart > 0`). -/
def extractCoTTrace (response : String) : String :=
  match findSubstr jsonCodeBlockStart response.toList with
  | some jsonStart =>
    if 0 < jsonStart then trimString (String.mk (response.toList.take jsonStart))
    else trimString response
  | none => trimString response

/-- The payload-location part of `extractDecisions`: the trimmed content between
the first "```json" marker and the next "```" fence, or the Go error. -/
def extractRawPayload (response : String) : Except String String :=
  match findSubstr jsonCodeBlockStart response.toList with
  | none => Except.error "无法找到JSON代码块起始标记: ```json"
  | some startIdx =>
    let afterStart := response.toList.drop (startIdx + jsonCodeBlockStart.length)
    match findSubstr jsonCodeBlockEnd afterStart with
    | none => Except.error "无法找到JSON代码块结束标记: ```"
    | some endRel => Except.ok (trimString (String.mk (afterStart.take endRel)))

/-- `fixMissingQuotes`: replace typographic (curly) quotes by straight ones.
The Go code does four single-character `strings.ReplaceAll` calls, which is a
character map. -/
def fixQuoteChar (c : Char) : Char :=
  if c = '“' then '"'
  else if c = '”' then '"'
  else if c = '‘' then '\u0027'
  else if c = '’' then '\u0027'
  else c

def fixMissingQuotes (jsonStr : String) : String :=
  String.mk (jsonStr.toList.map fixQuoteChar)

/-- `extractDecisions`, with the `encoding/json` decoders abstracted:
`unmarshalArray` / `unmarshalObject` stand for `json.Unmarshal` into
`[]Decision` and a single `Decision` (`none` = that decode fails). -/
def extractDecisions (unmarshalArray : String → Option (List Decision))
    (unmarshalObject : String → Option Decision) (response : String) :
    Except String (List Decision) :=
  match extractRawPayload response with
  | Except.error e => Except.error e
  | Except.ok raw =>
    let jsonContent := fixMissingQuotes raw
    match unmarshalArray jsonContent with
    | some decisions => Except.ok decisions
    | none =>
      match unmarshalObject jsonContent with
      | some d => Except.ok [d]
      | none => Except.error ("JSON解析失败 (尝试数组和对象两种模式后): " ++ jsonContent)

/-- C7: extractDecisions fails exactly when the response has no "```json"
marker, no closing "```" fence after it, or the curly-quote-fixed payload fails
both array-shaped and object-shaped decoding; on success it returns the decoded
array as-is, or wraps a single decoded object into a one-element list.  The
payload handed to both decoders is `fixMissingQuotes` of the fenced content,
i.e. typographic quotes are straightened before parsing. -/
theorem C7_extractDecisions_characterization (uA : String → Option (List Decision)) (uO : String → Option Decision)
    (response : String) :
    ((∃ e, extractDecisions uA uO response = Except.error e) ↔
      (findSubstr jsonCodeBlockStart response.toList = none ∨
       (∃ i, findSubstr jsonCodeBlockStart response.toList = some i ∧
         findSubstr jsonCodeBlockEnd
           (response.toList.drop (i + jsonCodeBlockStart.length)) = none) ∨
       (∃ p, extractRawPayload response = Except.ok p ∧
         uA (fixMissingQuotes p) = none ∧ uO (fixMissingQuotes p) = none))) ∧
    (∀ p, extractRawPayload response = Except.ok p →
      (∀ ds, uA (fixMissingQuotes p) = some ds →
        extractDecisions uA uO response = Except.ok ds) ∧
      (uA (fixMissingQuotes p) = none → ∀ d, uO (fixMissingQuotes p) = some d →
        extractDecisions uA uO response = Except.ok [d])) := by
  constructor
  · unfold extractDecisions extractRawPayload
    simp only [String.toList]
    cases hs : findSubstr jsonCodeBlockStart response.data with
    | none => simp [hs]
    | some i =>
      cases he : findSubstr jsonCodeBlockEnd
          (response.data.drop (i + jsonCodeBlockStart.length)) with
      | none => simp [hs, he]
      | some endRel =>
        cases ha : uA (fixMissingQuotes (trimString (String.mk
            ((response.data.drop (i + jsonCodeBlockStart.length)).take endRel)))) with
        | some ds => simp [hs, he, ha]
        | none =>
          cases ho : uO (fixMissingQuotes (trimString (String.mk
              ((response.data.drop (i + jsonCodeBlockStart.length)).take endRel)))) with
          | some d => simp [hs, he, ha, ho]
          | none => simp [hs, he, ha, ho]
  · intro p hp
    constructor
    · intro ds hds
      unfold extractDecisions
      rw [hp]
      simp [hds]
    · intro hnone d hd
      unfold extractDecisions
      rw [hp]
      simp [hnone, hd]


/-- Result of one `mcpClient.CallWithMessages` call: raw response text or an
HTTP/transport error. -/
inductive CallResult where
  | ok (response : String)
  | transportError (msg : String)
deriving DecidableEq

/-- `FullDecision` restricted to the fields the loop computes before
timestamping (CoT trace and decision list). -/
structure FullDecision where
  cotTrace : String
  decisions : List Decision
deriving DecidableEq

/-- The correction prompt of GetFullDecision, embedding the previous error, the
original request and the previous failed raw response verbatim. -/
def mkCorrectionPrompt (prevErr userPrompt prevResponse : String) : String :=
  "Your previous attempt failed with the following error: " ++ prevErr ++
  "\n\nOriginal Request:\n" ++ userPrompt ++
  "\n\nYour Failed Response:\n" ++ prevResponse ++
  "\n\nPlease review your response, correct the error according to the system rules, and provide the full, corrected response (CoT and JSON)."

/-- Typed counterpart of GetFullDecision's error returns: a transport failure
aborts with the attempt index, a terminal failure carries the attempt budget
and the last parse/validation error. -/
inductive GFDError where
  | transport (attempt : ℕ) (msg : String)
  | terminal (attempts : ℕ) (lastError : String)
deriving DecidableEq

/-- `maxRetries` constant of GetFullDecision: first attempt + one correction. -/
def maxRetries : ℕ := 2

/-- The retry loop of GetFullDecision.  `client i` is the reasoning endpoint's
behaviour on the i-th call (`mcpClient.CallWithMessages`); `parse` is
`parseFullDecisionResponse`.  Besides the outcome, the model returns the list
of user prompts actually sent, in order. -/
def gfdLoop (client : ℕ → CallResult) (parse : String → Except String FullDecision)
    (userPrompt : String) :
    ℕ → ℕ → String → String → Except GFDError FullDecision × List String
  | 0, _, prevErr, _ => (Except.error (GFDError.terminal maxRetries prevErr), [])
  | fuel + 1, attempt, prevErr, prevResponse =>
    let currentPrompt :=
      if 0 < attempt then mkCorrectionPrompt prevErr userPrompt prevResponse else userPrompt
    match client attempt with
    | CallResult.transportError m =>
      (Except.error (GFDError.transport attempt m), [currentPrompt])
    | CallResult.ok aiResponse =>
      match parse aiResponse with
      | Except.ok d => (Except.ok d, [currentPrompt])
      | Except.error e =>
        let r := gfdLoop client parse userPrompt fuel (attempt + 1) e aiResponse
        (r.1, currentPrompt :: r.2)

/-- `validateDecisions` from decision/engine.go: validate each decision in
order; the first violation aborts the set.  (The Go index in the error message
is abstracted away.) -/
def validateDecisions (decisions : List Decision) (accountEquity : ℚ)
    (btcEthLeverage altcoinLeverage : ℤ) (marketGet : String → Option ℚ) :
    Except String Unit :=
  match decisions with
  | [] => Except.ok ()
  | d :: rest =>
    match validateDecision d accountEquity btcEthLeverage altcoinLeverage marketGet with
    | Except.error e => Except.error ("决策验证失败: " ++ e)
    | Except.ok _ => validateDecisions rest accountEquity btcEthLeverage altcoinLeverage marketGet

/-- `parseFullDecisionResponse` from decision/engine.go: extract the CoT trace
and the JSON decision list, then validate; parse and validation failures carry
the CoT trace in the error. -/
def parseFullDecisionResponse (unmarshalArray : String → Option (List Decision))
    (unmarshalObject : String → Option Decision) (aiResponse : String)
    (accountEquity : ℚ) (btcEthLeverage altcoinLeverage : ℤ)
    (marketGet : String → Option ℚ) : Except String FullDecision :=
  let cotTrace := extractCoTTrace aiResponse
  match extractDecisions unmarshalArray unmarshalObject aiResponse with
  | Except.error e =>
    Except.error ("提取决策失败: " ++ e ++ "\n\n=== AI思维链分析 ===\n" ++ cotTrace)
  | Except.ok decisions =>
    match validateDecisions decisions accountEquity btcEthLeverage altcoinLeverage marketGet with
    | Except.error e =>
      Except.error ("决策验证失败: " ++ e ++ "\n\n=== AI思维链分析 ===\n" ++ cotTrace)
    | Except.ok _ => Except.ok { cotTrace := cotTrace, decisions := decisions }

/-- `GetFullDecision` from decision/engine.go with prompt construction and
market-data fetch abstracted: run the retry loop with the `maxRetries` budget
from attempt 0, parsing with `parseFullDecisionResponse`. -/
def GetFullDecision (client : ℕ → CallResult)
    (unmarshalArray : String → Option (List Decision))
    (unmarshalObject : String → Option Decision) (userPrompt : String)
    (accountEquity : ℚ) (btcEthLeverage altcoinLeverage : ℤ)
    (marketGet : String → Option ℚ) :
    Except GFDError FullDecision × List String :=
  gfdLoop client
    (fun resp => parseFullDecisionResponse unmarshalArray unmarshalObject resp
      accountEquity btcEthLeverage altcoinLeverage marketGet)
    userPrompt maxRetries 0 "" ""

/-- C6: GetFullDecision makes at most two reasoning-model calls; a transport
error aborts immediately with no correction call; a successful parse on the
first attempt makes exactly one call; a parse/validation failure on the first
attempt triggers exactly one correction call whose prompt embeds the previous
error, the original user prompt and the previous raw response verbatim; and a
second failure yields the terminal error carrying the last parse/validation
error. -/
theorem C6_getFullDecision_retry_budget (client : ℕ → CallResult)
    (uA : String → Option (List Decision)) (uO : String → Option Decision)
    (userPrompt : String) (accountEquity : ℚ) (bl al : ℤ) (mkt : String → Option ℚ) :
    (GetFullDecision client uA uO userPrompt accountEquity bl al mkt).2.length ≤ 2 ∧
    (∀ m, client 0 = CallResult.transportError m →
      GetFullDecision client uA uO userPrompt accountEquity bl al mkt =
        (Except.error (GFDError.transport 0 m), [userPrompt])) ∧
    (∀ r₀ d, client 0 = CallResult.ok r₀ →
      parseFullDecisionResponse uA uO r₀ accountEquity bl al mkt = Except.ok d →
      GetFullDecision client uA uO userPrompt accountEquity bl al mkt =
        (Except.ok d, [userPrompt])) ∧
    (∀ r₀ e₀, client 0 = CallResult.ok r₀ →
      parseFullDecisionResponse uA uO r₀ accountEquity bl al mkt = Except.error e₀ →
      (GetFullDecision client uA uO userPrompt accountEquity bl al mkt).2 =
        [userPrompt, mkCorrectionPrompt e₀ userPrompt r₀] ∧
      (∀ m, client 1 = CallResult.transportError m →
        (GetFullDecision client uA uO userPrompt accountEquity bl al mkt).1 =
          Except.error (GFDError.transport 1 m)) ∧
      (∀ r₁ d, client 1 = CallResult.ok r₁ →
        parseFullDecisionResponse uA uO r₁ accountEquity bl al mkt = Except.ok d →
        (GetFullDecision client uA uO userPrompt accountEquity bl al mkt).1 =
          Except.ok d) ∧
      (∀ r₁ e₁, client 1 = CallResult.ok r₁ →
        parseFullDecisionResponse uA uO r₁ accountEquity bl al mkt = Except.error e₁ →
        (GetFullDecision client uA uO userPrompt accountEquity bl al mkt).1 =
          Except.error (GFDError.terminal 2 e₁))) := by
  unfold GetFullDecision maxRetries
  refine ⟨?_, ?_, ?_, ?_⟩
  · cases hc0 : client 0 with
    | transportError m => simp [gfdLoop, hc0]
    | ok r₀ =>
      cases hp0 : parseFullDecisionResponse uA uO r₀ accountEquity bl al mkt with
      | ok d => simp [gfdLoop, hc0, hp0]
      | error e₀ =>
        cases hc1 : client 1 with
        | transportError m => simp [gfdLoop, hc0, hp0, hc1]
        | ok r₁ =>
          cases hp1 : parseFullDecisionResponse uA uO r₁ accountEquity bl al mkt with
          | ok d => simp [gfdLoop, hc0, hp0, hc1, hp1]
          | error e₁ => simp [gfdLoop, hc0, hp0, hc1, hp1]
  · intro m hc0
    simp [gfdLoop, hc0]
  · intro r₀ d hc0 hp0
    simp [gfdLoop, hc0, hp0]
  · intro r₀ e₀ hc0 hp0
    refine ⟨?_, ?_, ?_, ?_⟩
    · cases hc1 : client 1 with
      | transportError m => simp [gfdLoop, hc0, hp0, hc1]
      | ok r₁ =>
        cases hp1 : parseFullDecisionResponse uA uO r₁ accountEquity bl al mkt with
        | ok d => simp [gfdLoop, hc0, hp0, hc1, hp1]
        | error e₁ => simp [gfdLoop, hc0, hp0, hc1, hp1]
    · intro m hc1
      simp [gfdLoop, hc0, hp0, hc1]
    · intro r₁ d hc1 hp1
      simp [gfdLoop, hc0, hp0, hc1, hp1]
    · intro r₁ e₁ hc1 hp1
      simp [gfdLoop, maxRetries, hc0, hp0, hc1, hp1]

/-- Array decoder that accepts exactly the payload "[]" (an empty decision
list), for the witnesses. -/
def uaEmptyList : String → Option (List Decision) :=
  fun s => if s = "[]" then some [] else none

/-- Object decoder that always fails, for the witnesses. -/
def uoNone : String → Option Decision := fun _ => none

/-- Array decoder that always fails, for the witnesses. -/
def uaNone : String → Option (List Decision) := fun _ => none

/-- Market lookup that always fails, for the witnesses. -/
def mktNone : String → Option ℚ := fun _ => none

/-- A response with a well-fenced empty JSON array. -/
def respFenced : String := "```json\n[]\n```"

/-- A client whose two calls both return unparsable responses. -/
def clientTwoBad : ℕ → CallResult :=
  fun i => if i = 0 then CallResult.ok "x" else CallResult.ok "y"

/-- The parse error produced for the raw response "x" (no fenced JSON block). -/
def parseErrX : String :=
  "提取决策失败: 无法找到JSON代码块起始标记: ```json\n\n=== AI思维链分析 ===\nx"

/-- The parse error produced for the raw response "y" (no fenced JSON block). -/
def parseErrY : String :=
  "提取决策失败: 无法找到JSON代码块起始标记: ```json\n\n=== AI思维链分析 ===\ny"

/-- C7 (witness): the characterization applied to a concrete fenced response
whose payload "[]" decodes as an empty decision array. -/
theorem C7_witness :
    extractRawPayload respFenced = Except.ok "[]" ∧
    uaEmptyList (fixMissingQuotes "[]") = some [] ∧
    extractDecisions uaEmptyList uoNone respFenced = Except.ok [] := by
  have hp : extractRawPayload respFenced = Except.ok "[]" := by decide
  have ha : uaEmptyList (fixMissingQuotes "[]") = some [] := by decide
  exact ⟨hp, ha,
    ((C7_extractDecisions_characterization uaEmptyList uoNone respFenced).2 "[]" hp).1 [] ha⟩

/-- C6 (witness): two unparsable responses exhaust the budget; the second call
uses the correction prompt embedding the first error and response, and the
terminal failure carries the second parse error. -/
theorem C6_witness :
    clientTwoBad 0 = CallResult.ok "x" ∧
    parseFullDecisionResponse uaNone uoNone "x" 0 0 0 mktNone = Except.error parseErrX ∧
    (GetFullDecision clientTwoBad uaNone uoNone "prompt" 0 0 0 mktNone).2 =
      ["prompt", mkCorrectionPrompt parseErrX "prompt" "x"] ∧
    (GetFullDecision clientTwoBad uaNone uoNone "prompt" 0 0 0 mktNone).1 =
      Except.error (GFDError.terminal 2 parseErrY) := by
  have hc0 : clientTwoBad 0 = CallResult.ok "x" := rfl
  have hc1 : clientTwoBad 1 = CallResult.ok "y" := rfl
  have hp0 : parseFullDecisionResponse uaNone uoNone "x" 0 0 0 mktNone =
      Except.error parseErrX := by decide
  have hp1 : parseFullDecisionResponse uaNone uoNone "y" 0 0 0 mktNone =
      Except.error parseErrY := by decide
  have h := (C6_getFullDecision_retry_budget clientTwoBad uaNone uoNone "prompt"
    0 0 0 mktNone).2.2.2 "x" parseErrX hc0 hp0
  exact ⟨hc0, hp0, h.1, h.2.2.2 "y" parseErrY hc1 hp1⟩



/-! ## Market-data fetch and the liquidity filter (decision/engine.go) -/

/-- The `market.Data` fields read by fetchMarketDataForContext: the current
price and the open-interest latest value (`none` = nil pointer). -/
structure MarketData where
  currentPrice : ℚ
  openInterest : Option ℚ
deriving DecidableEq

/-- The liquidity filter of fetchMarketDataForContext: a symbol that is not a
held position, has open-interest data and a positive price, and whose
open-interest notional is below 15M USD, is skipped. -/
def passesLiquidityFilter (isExistingPosition : Bool) (data : MarketData) : Bool :=
  if !isExistingPosition then
    match data.openInterest with
    | some oiLatest =>
      if 0 < data.currentPrice then
        if oiLatest * data.currentPrice / 1000000 < 15 then false else true
      else true
    | none => true
  else true

/-- The fetch loop of fetchMarketDataForContext over the configured symbol set:
drop symbols whose `market.Get` fails, apply the liquidity filter (skipped for
held positions), collect the rest.  The Go map is modelled as an association
list over the deduplicated configured symbols. -/
def marketEntries (configuredSymbols : List String) (positionSymbols : List String)
    (get : String → Option MarketData) : List (String × MarketData) :=
  (configuredSymbols.dedup).filterMap (fun symbol =>
    match get symbol with
    | none => none
    | some data =>
      if passesLiquidityFilter (positionSymbols.contains symbol) data then
        some (symbol, data)
      else none)

/-- `fetchMarketDataForContext` from decision/engine.go: fail when a non-empty
configured universe yields zero snapshots, else return the fetched map. -/
def fetchMarketDataForContext (configuredSymbols : List String)
    (positionSymbols : List String) (get : String → Option MarketData) :
    Except String (List (String × MarketData)) :=
  let entries := marketEntries configuredSymbols positionSymbols get
  if entries.length = 0 ∧ 0 < (configuredSymbols.dedup).length then
    Except.error "未能获取任何配置币种的市场数据"
  else
    Except.ok entries

/-- Market data with price 0: open-interest notional 0 is below the floor, yet
the filter's `data.CurrentPrice > 0` guard keeps the symbol. -/
def zeroPriceData : MarketData := { currentPrice := 0, openInterest := some 1 }

/-- C8 (counterexample): a non-held symbol whose openInterest.latest ×
currentPrice (= 1 × 0) is below the 15M USD floor is nevertheless kept in the
result map, because the liquidity filter only runs when currentPrice > 0.  So
the claim as stated (exclusion for every below-floor symbol) fails. -/
theorem C8_counterexample_zero_price :
    (zeroPriceData.openInterest = some 1 ∧ (1:ℚ) * zeroPriceData.currentPrice < 15000000) ∧
    ¬ ("AAAUSDT" ∈ ([] : List String)) ∧
    fetchMarketDataForContext ["AAAUSDT"] [] (fun _ => some zeroPriceData) =
      Except.ok [("AAAUSDT", zeroPriceData)] := by
  refine ⟨⟨rfl, by norm_num [zeroPriceData]⟩, by simp, ?_⟩
  decide

/-- C8 (amended): for a configured symbol with fetched data, if it is not a
held position, its open interest is present, its price is strictly positive and
its open-interest notional is below the floor, it is excluded from the result
map entirely; a held symbol is never excluded under the identical inputs; and a
non-empty configured universe yielding zero snapshots makes the whole fetch
fail. -/
theorem C8_liquidity_filter (configuredSymbols positionSymbols : List String)
    (get : String → Option MarketData) (s : String) (data : MarketData)
    (hs : s ∈ configuredSymbols) (hget : get s = some data) :
    ((positionSymbols.contains s = false → ∀ oiLatest, data.openInterest = some oiLatest →
      0 < data.currentPrice → oiLatest * data.currentPrice / 1000000 < 15 →
      ∀ r, fetchMarketDataForContext configuredSymbols positionSymbols get = Except.ok r →
        ∀ md, (s, md) ∉ r) ∧
    (positionSymbols.contains s = true →
      ∀ r, fetchMarketDataForContext configuredSymbols positionSymbols get = Except.ok r →
        (s, data) ∈ r)) ∧
    (configuredSymbols ≠ [] →
      marketEntries configuredSymbols positionSymbols get = [] →
      fetchMarketDataForContext configuredSymbols positionSymbols get =
        Except.error "未能获取任何配置币种的市场数据") := by
  refine ⟨⟨?_, ?_⟩, ?_⟩
  · intro hpos oiLatest hoi hprice hfloor r hr md hmem
    unfold fetchMarketDataForContext at hr
    have hrent : r = marketEntries configuredSymbols positionSymbols get := by
      by_cases hc : (marketEntries configuredSymbols positionSymbols get).length = 0 ∧
          0 < (configuredSymbols.dedup).length
      · rw [if_pos hc] at hr
        cases hr
      · rw [if_neg hc] at hr
        cases hr
        rfl
    subst hrent
    unfold marketEntries at hmem
    rcases List.mem_filterMap.mp hmem with ⟨sym, hsym, heq⟩
    rcases hg : get sym with _ | d
    · simp only [hg] at heq
      exact Option.noConfusion heq
    · simp only [hg] at heq
      by_cases hpass : passesLiquidityFilter (positionSymbols.contains sym) d
      · rw [if_pos hpass] at heq
        simp only [Option.some.injEq, Prod.mk.injEq] at heq
        obtain ⟨hs1, hd1⟩ := heq
        subst hs1
        rw [hget] at hg
        injection hg with hd2
        subst hd2
        have hnotmem : sym ∉ positionSymbols := by simpa using hpos
        simp [passesLiquidityFilter, hoi, hprice, hfloor] at hpass
        exact hnotmem hpass
      · rw [if_neg hpass] at heq
        cases heq
  · intro hpos r hr
    have hment : (s, data) ∈ marketEntries configuredSymbols positionSymbols get := by
      unfold marketEntries
      apply List.mem_filterMap.mpr
      refine ⟨s, List.mem_dedup.mpr hs, ?_⟩
      have hpass : passesLiquidityFilter (positionSymbols.contains s) data = true := by
        unfold passesLiquidityFilter
        rw [hpos]
        simp
      simp only [hget]
      rw [if_pos hpass]
    unfold fetchMarketDataForContext at hr
    by_cases hc : (marketEntries configuredSymbols positionSymbols get).length = 0 ∧
        0 < (configuredSymbols.dedup).length
    · rw [if_pos hc] at hr
      cases hr
    · rw [if_neg hc] at hr
      cases hr
      exact hment
  · intro hne hemp
    unfold fetchMarketDataForContext
    rw [hemp]
    have hlen : 0 < (configuredSymbols.dedup).length := by
      rcases configuredSymbols with _ | ⟨a, rest⟩
      · exact absurd rfl hne
      · have : a ∈ (a :: rest).dedup := List.mem_dedup.mpr (List.mem_cons_self a rest)
        exact List.length_pos.mpr (List.ne_nil_of_mem this)
    rw [if_pos ⟨rfl, hlen⟩]


/-- Configured universe for the C8 witness. -/
def cfgW : List String := ["AAAUSDT", "BBBUSDT"]
/-- Held positions for the C8 witness. -/
def posW : List String := ["BBBUSDT"]
/-- Market data with open-interest notional 1000 USD, far below the floor. -/
def lowOIData : MarketData := { currentPrice := 1, openInterest := some 1000 }
/-- Market lookup returning the same below-floor data for every symbol. -/
def getW : String → Option MarketData := fun _ => some lowOIData

/-- C8 (witness): under identical below-floor data, the non-held symbol is
excluded while the held one stays. -/
theorem C8_witness :
    fetchMarketDataForContext cfgW posW getW = Except.ok [("BBBUSDT", lowOIData)] ∧
    (∀ md, ("AAAUSDT", md) ∉ [("BBBUSDT", lowOIData)]) ∧
    ("BBBUSDT", lowOIData) ∈ [("BBBUSDT", lowOIData)] := by
  have hfetch : fetchMarketDataForContext cfgW posW getW =
      Except.ok [("BBBUSDT", lowOIData)] := by
    norm_num [fetchMarketDataForContext, marketEntries, passesLiquidityFilter,
      cfgW, posW, getW, lowOIData, List.dedup, List.filterMap]
    simp [List.pwFilter]
  refine ⟨hfetch, ?_, List.mem_singleton.mpr rfl⟩
  exact (C8_liquidity_filter cfgW posW getW "AAAUSDT" lowOIData (by decide) rfl).1.1 (by decide)
    1000 rfl (by norm_num [lowOIData]) (by norm_num [lowOIData])
    [("BBBUSDT", lowOIData)] hfetch



/-! ## Indicators: ADX seeding bounds (market/data.go) -/

/-- `market.Kline`, restricted to the fields the indicators read. -/
structure Kline where
  high : ℚ
  low : ℚ
  close : ℚ
deriving DecidableEq

/-- The `trueRange` array of calculateADX: index 0 stays 0; index i holds
max(high-low, |high-prevHigh|, |low-prevLow|) of candles i-1, i. -/
def trList (klines : List Kline) : List ℚ :=
  match klines with
  | [] => []
  | _ :: tail =>
    0 :: (List.zip klines tail).map (fun p =>
      max (p.2.high - p.2.low) (max |p.2.high - p.1.high| |p.2.low - p.1.low|))

/-- The `plusDM` array of calculateADX. -/
def plusDMList (klines : List Kline) : List ℚ :=
  match klines with
  | [] => []
  | _ :: tail =>
    0 :: (List.zip klines tail).map (fun p =>
      let moveUp := p.2.high - p.1.high
      let moveDown := p.1.low - p.2.low
      if moveDown < moveUp ∧ 0 < moveUp then moveUp else 0)

/-- The `minusDM` array of calculateADX. -/
def minusDMList (klines : List Kline) : List ℚ :=
  match klines with
  | [] => []
  | _ :: tail =>
    0 :: (List.zip klines tail).map (fun p =>
      let moveUp := p.2.high - p.1.high
      let moveDown := p.1.low - p.2.low
      if moveUp < moveDown ∧ 0 < moveDown then moveDown else 0)

/-- The smoothed TR/DM arrays of calculateADX: 0 below `period`, an SMA-style
seed (sum of xs[1..period]) at `period`, then Wilder smoothing
`s(i) = s(i-1) - s(i-1)/period + xs[i]`. -/
def wilderSmooth (xs : List ℚ) (period : ℕ) : ℕ → ℚ
  | 0 => 0
  | i + 1 =>
    if i + 1 < period then 0
    else if i + 1 = period then ((List.range period).map (fun j => xs.getD (j + 1) 0)).sum
    else wilderSmooth xs period i - wilderSmooth xs period i / (period : ℚ) + xs.getD (i + 1) 0

/-- `plusDI[i]` of calculateADX (0 when the smoothed TR is 0). -/
def plusDIAt (klines : List Kline) (period i : ℕ) : ℚ :=
  let str := wilderSmooth (trList klines) period i
  if str = 0 then 0 else wilderSmooth (plusDMList klines) period i / str * 100

/-- `minusDI[i]` of calculateADX. -/
def minusDIAt (klines : List Kline) (period i : ℕ) : ℚ :=
  let str := wilderSmooth (trList klines) period i
  if str = 0 then 0 else wilderSmooth (minusDMList klines) period i / str * 100

/-- `dx[i]` of calculateADX.  For i < period the smoothed values are 0, so
this evaluates to 0, matching the zeroed Go array slots. -/
def dxAt (klines : List Kline) (period i : ℕ) : ℚ :=
  let p := plusDIAt klines period i
  let m := minusDIAt klines period i
  if p + m = 0 then 0 else |p - m| / (p + m) * 100

/-- The `dx` array of calculateADX: length `len(klines)`, like the Go slice. -/
def dxList (klines : List Kline) (period : ℕ) : List ℚ :=
  (List.range klines.length).map (dxAt klines period)

/-- `calculateADX` from market/data.go.  The ADX seeding loop
`for i := period; i < period*2 { sumDX += dx[i] }` reads `dx[i]` for indices up
to 2·period-1 with only a bounds-checked access model: an index ≥ len(klines)
is a Go slice panic, modelled as `none`. -/
def calculateADX (klines : List Kline) (period : ℕ) : Option ℚ :=
  if klines.length ≤ period then some 0
  else
    let dx := dxList klines period
    let sumDXOpt := (List.range period).foldl
      (fun acc j =>
        match acc, dx.get? (period + j) with
        | some a, some b => some (a + b)
        | _, _ => none) (some 0)
    match sumDXOpt with
    | none => none
    | some sumDX =>
      let adxInit := if 0 < period then sumDX / (period : ℚ) else 0
      some ((List.range (klines.length - 2 * period)).foldl
        (fun adx j => (adx * ((period : ℚ) - 1) + dx.getD (2 * period + j) 0) / (period : ℚ))
        adxInit)

/-- `calculateEMA` from market/data.go: 0 as the explicit insufficient-data
sentinel, else an SMA seed followed by the EMA recurrence with multiplier
2/(period+1). -/
def calculateEMA (klines : List Kline) (period : ℕ) : ℚ :=
  if klines.length < period then 0
  else
    let seed := ((klines.take period).map Kline.close).sum / (period : ℚ)
    ((klines.drop period).map Kline.close).foldl
      (fun ema c => (c - ema) * (2 / ((period : ℚ) + 1)) + ema) seed

/-- A degenerate all-zero candle. -/
def zeroKline : Kline := { high := 0, low := 0, close := 0 }

/-- Three candles: more than period = 2 (so the insufficient-data guard
passes) but fewer than 2·period = 4 (so the ADX seeding loop runs out of the
dx array). -/
def adxKlines3 : List Kline := [zeroKline, zeroKline, zeroKline]


/-- C9: for period 2 and a 3-candle series (period < n < 2·period, period ≥ 1)
calculateADX neither returns the insufficient-data value nor stays in bounds:
its ADX seeding loop reads dx[3] in a length-3 array, which is a runtime panic
in Go (`none` here).  calculateEMA, by contrast, returns its explicit 0
sentinel on short input. -/
theorem C9_calculateADX_seed_out_of_bounds :
    (1 ≤ 2 ∧ 2 < adxKlines3.length ∧ adxKlines3.length < 2 * 2) ∧
    calculateADX adxKlines3 2 = none ∧
    calculateEMA adxKlines3 20 = 0 := by
  refine ⟨⟨by norm_num, by norm_num [adxKlines3], by norm_num [adxKlines3]⟩, ?_, ?_⟩
  · norm_num [calculateADX, adxKlines3, dxList, dxAt, plusDIAt, minusDIAt,
      wilderSmooth, trList, plusDMList, minusDMList, zeroKline, List.range,
      List.range.loop, List.getD]
  · norm_num [calculateEMA, adxKlines3]

end Nofx
